import Mathlib

set_option maxRecDepth 16384

/-!
Verification of the concurrent web crawler in `web-crawler/crawler.go`.

The crawler is embedded as a small-step interleaving semantics: every
goroutine running `crawl` is a `UnitState` holding its arguments (`url`,
`depth`) and a program counter `Pc` marking the atomic action it performs
next (each `Pc` value corresponds to one lock-protected cache operation,
one channel operation, one fetch, or one local control step of the Go
function `crawl`).  A whole execution state (`CrawlState`) is the shared
`SafeCache`, the channel contents, and the list of live goroutines; a
scheduler is an explicit list of goroutine indices, and `run` executes a
schedule deterministically, so that concrete interleavings can be
evaluated and properties can be proved over all interleavings by
induction on the schedule.
-/

namespace WebCrawler

/-- Result of one `Fetch`: the Go signature `(body string, urls []string,
err error)`, with `error` embedded as `Option String` (`none` = nil). -/
structure FetchTriple where
  body : String
  urls : List String
  err : Option String
deriving DecidableEq, Repr

/-- The `fakeResult` struct of crawler.go: canned body and url list. -/
structure FakeResult where
  body : String
  urls : List String
deriving DecidableEq, Repr

/-- Embedding of the Go map underlying `fakeFetcher`: an association list
with distinct keys; `lookupFake` is map indexing `f[url]` (`none` = key
absent, i.e. `ok` false). -/
def lookupFake : List (String × FakeResult) → String → Option FakeResult
  | [], _ => none
  | (k, v) :: rest, url => if k = url then some v else lookupFake rest url

/-- The method `fakeFetcher.Fetch`: if `url` is a key, return the canned
body and urls with nil error; otherwise return `"", nil` and the error
`fmt.Errorf("not found: %s", url)`. -/
def fakeFetch (f : List (String × FakeResult)) (url : String) : FetchTriple :=
  match lookupFake f url with
  | some res => ⟨res.body, res.urls, none⟩
  | none => ⟨"", [], some ("not found: " ++ url)⟩

/-- The populated `fetcher` value of crawler.go (four entries). -/
def goFetcher : List (String × FakeResult) :=
  [ ("https://golang.org/",
      ⟨"The Go Programming Language",
        ["https://golang.org/pkg/", "https://golang.org/cmd/"]⟩),
    ("https://golang.org/pkg/",
      ⟨"Packages",
        ["https://golang.org/", "https://golang.org/cmd/",
         "https://golang.org/pkg/fmt/", "https://golang.org/pkg/os/"]⟩),
    ("https://golang.org/pkg/fmt/",
      ⟨"Package fmt", ["https://golang.org/", "https://golang.org/pkg/"]⟩),
    ("https://golang.org/pkg/os/",
      ⟨"Package os", ["https://golang.org/", "https://golang.org/pkg/"]⟩) ]

/-- The `SafeCache` struct: the visited map (`map[string]bool`, embedded
as its lookup function, absent keys reading `false`) and the `routine`
counter (Go `int`, embedded as `Int`).  The mutex is represented by each
operation below being one atomic step of the semantics. -/
structure SafeCache where
  visited : String → Bool
  routine : Int

/-- Method `Visited` of `SafeCache`: `c.visited[url] = true` under the lock. -/
def SafeCache.Visited (c : SafeCache) (url : String) : SafeCache :=
  { c with visited := fun k => if k = url then true else c.visited k }

/-- Method `IsVisited` of `SafeCache`: read `c.visited[url]` under the lock. -/
def SafeCache.IsVisited (c : SafeCache) (url : String) : Bool :=
  c.visited url

/-- Method `AddRoutine` of `SafeCache`: `c.routine++` under the lock. -/
def SafeCache.AddRoutine (c : SafeCache) : SafeCache :=
  { c with routine := c.routine + 1 }

/-- Method `DoneRoutine` of `SafeCache`: `c.routine--` under the lock. -/
def SafeCache.DoneRoutine (c : SafeCache) : SafeCache :=
  { c with routine := c.routine - 1 }

/-- Method `GetRoutineNum` of `SafeCache`: read `c.routine` under the lock. -/
def SafeCache.GetRoutineNum (c : SafeCache) : Int :=
  c.routine

/-- The fresh cache made by `Crawl`:
`&SafeCache{visited: make(map[string]bool), routine: 0}`. -/
def newCache : SafeCache :=
  { visited := fun _ => false, routine := 0 }

/-- The `FetchResult` struct pushed on the channel `ch`. -/
structure FetchResult where
  url : String
  body : String
  err : Option String
deriving DecidableEq, Repr

/-- Program counter of one goroutine running `crawl`.  Each constructor
is the next atomic action; local data already read (fetch results, the
loop's remaining url slice) is carried in the constructor arguments.

* `entry`    — the `if depth <= 0` guard (line 57);
* `mark`     — `cache.Visited(url)` (line 66);
* `fetchUrl` — `fetcher.Fetch(url)` and the `err != nil` test (lines 67-69);
* `logErr`   — `fmt.Println(err)` on the error path (line 70);
* `send`     — `ch <- result` (line 81);
* `loop`     — the `for _, u := range urls` iteration with the remaining
  slice, including the `cache.IsVisited(u)` read (lines 83-84);
* `addR`     — `cache.AddRoutine()` for an unvisited `u` (line 85);
* `goChild`  — `go crawl(u, depth-1, ...)` (line 86);
* `doneR`    — `cache.DoneRoutine()` (lines 71 / 90);
* `checkClose` — `n := cache.GetRoutineNum()` and the `n <= 0` test
  (line 61, inside `chanCloseFunc`);
* `closeCh`  — `close(ch)` (line 62), performed after the counter read's
  lock has been released. -/
inductive Pc where
  | entry
  | mark
  | fetchUrl
  | logErr (e : String)
  | send (body : String) (urls : List String)
  | loop (urls : List String)
  | addR (u : String) (rest : List String)
  | goChild (u : String) (rest : List String)
  | doneR
  | checkClose
  | closeCh
deriving DecidableEq, Repr

/-- One live goroutine running `crawl(url, depth, fetcher, ch, cache)`. -/
structure UnitState where
  url : String
  depth : Int
  pc : Pc
deriving DecidableEq, Repr

/-- Global state of one `Crawl` invocation: the shared cache, the channel
(`emitted` = values received by the drain loop so far, `closed` = channel
closed), the stderr-style log of fetch errors, a `panicked` flag set when
the Go program would panic (`close` of a closed channel, or send on a
closed channel), and the list of live goroutines. -/
structure CrawlState where
  cache : SafeCache
  emitted : List FetchResult
  errors : List String
  closed : Bool
  panicked : Bool
  units : List UnitState

/-- One atomic action of goroutine `u` against shared state `s`.  Returns
the new shared state, the goroutine's continuation (`none` when `crawl`
returns), and a goroutine newly started by a `go` statement, if any. -/
def stepUnit (F : String → FetchTriple) (s : CrawlState) (u : UnitState) :
    CrawlState × Option UnitState × Option UnitState :=
  match u.pc with
  | .entry =>
      if u.depth ≤ 0 then (s, none, none)
      else (s, some { u with pc := .mark }, none)
  | .mark =>
      ({ s with cache := s.cache.Visited u.url }, some { u with pc := .fetchUrl }, none)
  | .fetchUrl =>
      let t := F u.url
      match t.err with
      | some e => (s, some { u with pc := .logErr e }, none)
      | none => (s, some { u with pc := .send t.body t.urls }, none)
  | .logErr e =>
      ({ s with errors := s.errors ++ [e] }, some { u with pc := .doneR }, none)
  | .send body urls =>
      if s.closed then
        ({ s with panicked := true }, none, none)
      else
        ({ s with emitted := s.emitted ++ [⟨u.url, body, none⟩] },
          some { u with pc := .loop urls }, none)
  | .loop [] =>
      (s, some { u with pc := .doneR }, none)
  | .loop (x :: rest) =>
      if s.cache.IsVisited x then (s, some { u with pc := .loop rest }, none)
      else (s, some { u with pc := .addR x rest }, none)
  | .addR x rest =>
      ({ s with cache := s.cache.AddRoutine }, some { u with pc := .goChild x rest }, none)
  | .goChild x rest =>
      (s, some { u with pc := .loop rest }, some ⟨x, u.depth - 1, .entry⟩)
  | .doneR =>
      ({ s with cache := s.cache.DoneRoutine }, some { u with pc := .checkClose }, none)
  | .checkClose =>
      if s.cache.GetRoutineNum ≤ 0 then (s, some { u with pc := .closeCh }, none)
      else (s, none, none)
  | .closeCh =>
      if s.closed then ({ s with panicked := true }, none, none)
      else ({ s with closed := true }, none, none)

/-- Scheduler step: goroutine `i` performs its next atomic action (a
schedule index with no live goroutine is a no-op). -/
def step (F : String → FetchTriple) (s : CrawlState) (i : Nat) : CrawlState :=
  match s.units[i]? with
  | none => s
  | some u =>
      let r := stepUnit F s u
      let base := match r.2.1 with
        | some u2 => s.units.set i u2
        | none => s.units.eraseIdx i
      let units2 := match r.2.2 with
        | some c => base ++ [c]
        | none => base
      { r.1 with units := units2 }

/-- Run a whole schedule (list of goroutine indices) from state `s`. -/
def run (F : String → FetchTriple) (s : CrawlState) : List Nat → CrawlState
  | [] => s
  | i :: rest => run F (step F s i) rest

/-- The state set up by `Crawl(url, depth, fetcher)` just after
`cache.AddRoutine(); go crawl(url, depth, fetcher, ch, cache)`
(lines 104-110): fresh cache with one charged routine, open empty
channel, and the root goroutine about to run. -/
def initState (url : String) (depth : Int) : CrawlState :=
  { cache := newCache.AddRoutine
    emitted := []
    errors := []
    closed := false
    panicked := false
    units := [⟨url, depth, .entry⟩] }

/-- Outstanding live-worker charge of one goroutine: how many
`AddRoutine` increments performed so far are still waiting for the
matching `DoneRoutine` of the goroutine itself or of a child it is just
about to start.  A goroutine before its own `DoneRoutine` carries `1`
(the increment its spawner — or `Crawl`, for the root — performed on its
behalf); between `AddRoutine` and the `go` statement it carries `2` (its
own plus the pending child's); after its `DoneRoutine` it carries `0`. -/
def Pc.charge : Pc → Nat
  | .checkClose => 0
  | .closeCh => 0
  | .goChild _ _ => 2
  | _ => 1

/-- Total outstanding live-worker charge of a goroutine list. -/
def unitsCharge (l : List UnitState) : Nat :=
  (l.map (fun u => u.pc.charge)).sum

/-- Total outstanding live-worker charge of a state. -/
def chargedTotal (s : CrawlState) : Nat :=
  unitsCharge s.units

/-- The global invariant of a `Crawl` execution:
1. the `routine` counter is at least the total outstanding charge (it can
   exceed it, by one per vanished depth-`0` goroutine that was charged by
   its spawner but returned without `DoneRoutine`);
2. once the channel is closed no goroutine carries outstanding charge
   (every live one is already past its `DoneRoutine`);
3. while some goroutine is about to `close(ch)`, no outstanding charge
   exists anywhere;
4. every goroutine past its depth guard has `depth ≥ 1`. -/
def GlobalInv (s : CrawlState) : Prop :=
  ((chargedTotal s : Int) ≤ s.cache.routine) ∧
  (s.closed = true → chargedTotal s = 0) ∧
  ((∃ u ∈ s.units, u.pc = Pc.closeCh) → chargedTotal s = 0) ∧
  (∀ u ∈ s.units, u.pc ≠ Pc.entry → 1 ≤ u.depth)

/-- A sequence of `Visited` (mark) calls applied to a cache in order. -/
def markAll (ms : List String) (c : SafeCache) : SafeCache :=
  ms.foldl (fun c u => c.Visited u) c

/-- Scenario graph for the depth-guard leak: node `a` links to `b`. -/
def graphA : List (String × FakeResult) :=
  [("a", ⟨"body a", ["b"]⟩)]

/-- Scenario graph for the double close: `a` links to `b`, `b` is a leaf. -/
def graphAB : List (String × FakeResult) :=
  [("a", ⟨"body a", ["b"]⟩), ("b", ⟨"body b", []⟩)]

/-- Scenario graph of the spec's concrete scenario: root `A` links to `B`
and `C`, `B` links back to `A`, and `C` is absent (its fetch fails). -/
def graphABC : List (String × FakeResult) :=
  [("A", ⟨"body A", ["B", "C"]⟩), ("B", ⟨"body B", ["A"]⟩)]

/-- Membership from an index lookup. -/
theorem mem_of_idx {l : List UnitState} {i : Nat} {u : UnitState}
    (h : l[i]? = some u) : u ∈ l := by
  rcases List.getElem?_eq_some.1 h with ⟨hlt, he⟩
  exact he ▸ List.getElem_mem hlt

/-- Charge bookkeeping for replacing the goroutine at index `i`. -/
theorem unitsCharge_set {l : List UnitState} {u : UnitState} (v : UnitState) :
    ∀ {i : Nat}, l[i]? = some u →
      unitsCharge (l.set i v) + u.pc.charge = unitsCharge l + v.pc.charge := by
  induction l with
  | nil => intro i h; simp at h
  | cons a t ih =>
      intro i h
      cases i with
      | zero =>
          simp only [List.getElem?_cons_zero, Option.some.injEq] at h
          subst h
          simp [unitsCharge]
          omega
      | succ i =>
          simp only [List.getElem?_cons_succ] at h
          have := ih h
          simp only [unitsCharge, List.map_cons, List.sum_cons,
            List.set_cons_succ] at this ⊢
          omega

/-- Charge bookkeeping for removing the goroutine at index `i`. -/
theorem unitsCharge_eraseIdx {l : List UnitState} {u : UnitState} :
    ∀ {i : Nat}, l[i]? = some u →
      unitsCharge (l.eraseIdx i) + u.pc.charge = unitsCharge l := by
  induction l with
  | nil => intro i h; simp at h
  | cons a t ih =>
      intro i h
      cases i with
      | zero =>
          simp only [List.getElem?_cons_zero, Option.some.injEq] at h
          subst h
          simp [unitsCharge, List.eraseIdx]
          omega
      | succ i =>
          simp only [List.getElem?_cons_succ] at h
          have := ih h
          simp only [unitsCharge, List.map_cons, List.sum_cons,
            List.eraseIdx_cons_succ] at this ⊢
          omega

/-- Charge bookkeeping for starting a goroutine. -/
theorem unitsCharge_append (l₁ l₂ : List UnitState) :
    unitsCharge (l₁ ++ l₂) = unitsCharge l₁ + unitsCharge l₂ := by
  simp [unitsCharge]

/-- A member's charge bounds the total charge. -/
theorem charge_le_of_mem {l : List UnitState} {u : UnitState} (h : u ∈ l) :
    u.pc.charge ≤ unitsCharge l := by
  induction l with
  | nil => simp at h
  | cons a t ih =>
      rcases List.mem_cons.1 h with rfl | h
      · simp only [unitsCharge, List.map_cons, List.sum_cons]
        omega
      · have := ih h
        simp only [unitsCharge, List.map_cons, List.sum_cons] at this ⊢
        omega

/-- In a list of total charge zero every member has charge zero. -/
theorem charge_eq_zero_of_mem {l : List UnitState} {u : UnitState}
    (h : u ∈ l) (h0 : unitsCharge l = 0) : u.pc.charge = 0 := by
  have := charge_le_of_mem h
  omega

/-- Depth invariant is stable under replacing one goroutine. -/
theorem depthInv_set {l : List UnitState} {v : UnitState} {i : Nat}
    (hD : ∀ w ∈ l, w.pc ≠ Pc.entry → 1 ≤ w.depth)
    (hv : v.pc ≠ Pc.entry → 1 ≤ v.depth) :
    ∀ w ∈ l.set i v, w.pc ≠ Pc.entry → 1 ≤ w.depth := by
  intro w hw hne
  rcases List.mem_or_eq_of_mem_set hw with h | rfl
  · exact hD w h hne
  · exact hv hne

/-- Depth invariant is stable under removing one goroutine. -/
theorem depthInv_erase {l : List UnitState} {i : Nat}
    (hD : ∀ w ∈ l, w.pc ≠ Pc.entry → 1 ≤ w.depth) :
    ∀ w ∈ l.eraseIdx i, w.pc ≠ Pc.entry → 1 ≤ w.depth :=
  fun w hw => hD w (List.eraseIdx_subset l i hw)


theorem not_closed_of_charged {s : CrawlState} {u : UnitState}
    (hB : s.closed = true → chargedTotal s = 0) (hmem : u ∈ s.units)
    (hch : u.pc.charge ≠ 0) : s.closed = false := by
  cases hcl : s.closed
  · rfl
  · exact absurd (charge_eq_zero_of_mem hmem (hB hcl)) hch

theorem no_closeCh_of_charged {s : CrawlState} {u : UnitState}
    (hC : (∃ w ∈ s.units, w.pc = Pc.closeCh) → chargedTotal s = 0)
    (hmem : u ∈ s.units) (hch : u.pc.charge ≠ 0) :
    ∀ w ∈ s.units, w.pc ≠ Pc.closeCh := by
  intro w hw he
  exact absurd (charge_eq_zero_of_mem hmem (hC ⟨w, hw, he⟩)) hch

theorem depthInv_set_of_mem {l : List UnitState} {i : Nat}
    {u v : UnitState}
    (hD : ∀ w ∈ l, w.pc ≠ Pc.entry → 1 ≤ w.depth)
    (hmem : u ∈ l) (hne : u.pc ≠ Pc.entry) (hdep : v.depth = u.depth) :
    ∀ w ∈ l.set i v, w.pc ≠ Pc.entry → 1 ≤ w.depth := by
  intro w hw h
  rcases List.mem_or_eq_of_mem_set hw with h' | rfl
  · exact hD w h' h
  · rw [hdep]
    exact hD u hmem hne

theorem Inv_step (F : String → FetchTriple) (s : CrawlState) (i : Nat)
    (h : GlobalInv s) : GlobalInv (step F s i) := by
  obtain ⟨hA, hB, hC, hD⟩ := h
  rw [step.eq_def]
  split
  · exact ⟨hA, hB, hC, hD⟩
  next u hu =>
    have hmem : u ∈ s.units := mem_of_idx hu
    obtain ⟨url, depth, pc⟩ := u
    cases pc with
    | entry =>
        by_cases hdep : depth ≤ 0
        · simp only [stepUnit, if_pos hdep]
          have herase := unitsCharge_eraseIdx hu
          refine ⟨?_, ?_, ?_, ?_⟩
          · simp only [chargedTotal] at hA ⊢
            simp only [Pc.charge] at herase
            omega
          · intro hcl
            have h0 := hB hcl
            have := charge_eq_zero_of_mem hmem h0
            simp [Pc.charge] at this
          · rintro ⟨w, hw, hwc⟩
            exact absurd hwc
              (no_closeCh_of_charged hC hmem (by simp [Pc.charge]) w
                (List.eraseIdx_subset _ _ hw))
          · exact depthInv_erase hD
        · simp only [stepUnit, if_neg hdep]
          have hset := unitsCharge_set { url := url, depth := depth, pc := Pc.mark } hu
          refine ⟨?_, ?_, ?_, ?_⟩
          · simp only [chargedTotal] at hA ⊢
            simp only [Pc.charge] at hset
            omega
          · intro hcl
            have h0 := hB hcl
            have := charge_eq_zero_of_mem hmem h0
            simp [Pc.charge] at this
          · rintro ⟨w, hw, hwc⟩
            rcases List.mem_or_eq_of_mem_set hw with h' | rfl
            · exact absurd hwc
                (no_closeCh_of_charged hC hmem (by simp [Pc.charge]) w h')
            · simp at hwc
          · exact depthInv_set hD (fun _ => show (1 : Int) ≤ depth by omega)
    | mark =>
        simp only [stepUnit]
        have hset := unitsCharge_set ⟨url, depth, Pc.fetchUrl⟩ hu
        refine ⟨?_, ?_, ?_, ?_⟩
        · simp only [chargedTotal, SafeCache.Visited] at hA ⊢
          simp only [Pc.charge] at hset
          omega
        · intro hcl
          have := charge_eq_zero_of_mem hmem (hB hcl)
          simp [Pc.charge] at this
        · rintro ⟨w, hw, hwc⟩
          rcases List.mem_or_eq_of_mem_set hw with h' | rfl
          · exact absurd hwc
              (no_closeCh_of_charged hC hmem (by simp [Pc.charge]) w h')
          · simp at hwc
        · exact depthInv_set_of_mem hD hmem (by simp) rfl
    | fetchUrl =>
        cases hfe : (F url).err with
        | some e =>
            simp only [stepUnit, hfe]
            have hset := unitsCharge_set ⟨url, depth, Pc.logErr e⟩ hu
            refine ⟨?_, ?_, ?_, ?_⟩
            · simp only [chargedTotal] at hA ⊢
              simp only [Pc.charge] at hset
              omega
            · intro hcl
              have := charge_eq_zero_of_mem hmem (hB hcl)
              simp [Pc.charge] at this
            · rintro ⟨w, hw, hwc⟩
              rcases List.mem_or_eq_of_mem_set hw with h' | rfl
              · exact absurd hwc
                  (no_closeCh_of_charged hC hmem (by simp [Pc.charge]) w h')
              · simp at hwc
            · exact depthInv_set_of_mem hD hmem (by simp) rfl
        | none =>
            simp only [stepUnit, hfe]
            have hset := unitsCharge_set
              ⟨url, depth, Pc.send (F url).body (F url).urls⟩ hu
            refine ⟨?_, ?_, ?_, ?_⟩
            · simp only [chargedTotal] at hA ⊢
              simp only [Pc.charge] at hset
              omega
            · intro hcl
              have := charge_eq_zero_of_mem hmem (hB hcl)
              simp [Pc.charge] at this
            · rintro ⟨w, hw, hwc⟩
              rcases List.mem_or_eq_of_mem_set hw with h' | rfl
              · exact absurd hwc
                  (no_closeCh_of_charged hC hmem (by simp [Pc.charge]) w h')
              · simp at hwc
            · exact depthInv_set_of_mem hD hmem (by simp) rfl
    | logErr e =>
        simp only [stepUnit]
        have hset := unitsCharge_set ⟨url, depth, Pc.doneR⟩ hu
        refine ⟨?_, ?_, ?_, ?_⟩
        · simp only [chargedTotal] at hA ⊢
          simp only [Pc.charge] at hset
          omega
        · intro hcl
          have := charge_eq_zero_of_mem hmem (hB hcl)
          simp [Pc.charge] at this
        · rintro ⟨w, hw, hwc⟩
          rcases List.mem_or_eq_of_mem_set hw with h' | rfl
          · exact absurd hwc
              (no_closeCh_of_charged hC hmem (by simp [Pc.charge]) w h')
          · simp at hwc
        · exact depthInv_set_of_mem hD hmem (by simp) rfl
    | send body urls =>
        by_cases hcl : s.closed
        · exact absurd (charge_eq_zero_of_mem hmem (hB hcl))
            (by simp [Pc.charge])
        · simp only [stepUnit, if_neg hcl]
          have hset := unitsCharge_set ⟨url, depth, Pc.loop urls⟩ hu
          refine ⟨?_, ?_, ?_, ?_⟩
          · simp only [chargedTotal] at hA ⊢
            simp only [Pc.charge] at hset
            omega
          · intro hcl2
            exact absurd hcl2 hcl
          · rintro ⟨w, hw, hwc⟩
            rcases List.mem_or_eq_of_mem_set hw with h' | rfl
            · exact absurd hwc
                (no_closeCh_of_charged hC hmem (by simp [Pc.charge]) w h')
            · simp at hwc
          · exact depthInv_set_of_mem hD hmem (by simp) rfl
    | loop urls =>
        cases urls with
        | nil =>
            simp only [stepUnit]
            have hset := unitsCharge_set ⟨url, depth, Pc.doneR⟩ hu
            refine ⟨?_, ?_, ?_, ?_⟩
            · simp only [chargedTotal] at hA ⊢
              simp only [Pc.charge] at hset
              omega
            · intro hcl
              have := charge_eq_zero_of_mem hmem (hB hcl)
              simp [Pc.charge] at this
            · rintro ⟨w, hw, hwc⟩
              rcases List.mem_or_eq_of_mem_set hw with h' | rfl
              · exact absurd hwc
                  (no_closeCh_of_charged hC hmem (by simp [Pc.charge]) w h')
              · simp at hwc
            · exact depthInv_set_of_mem hD hmem (by simp) rfl
        | cons x rest =>
            by_cases hvis : s.cache.IsVisited x
            · simp only [stepUnit, if_pos hvis]
              have hset := unitsCharge_set ⟨url, depth, Pc.loop rest⟩ hu
              refine ⟨?_, ?_, ?_, ?_⟩
              · simp only [chargedTotal] at hA ⊢
                simp only [Pc.charge] at hset
                omega
              · intro hcl
                have := charge_eq_zero_of_mem hmem (hB hcl)
                simp [Pc.charge] at this
              · rintro ⟨w, hw, hwc⟩
                rcases List.mem_or_eq_of_mem_set hw with h' | rfl
                · exact absurd hwc
                    (no_closeCh_of_charged hC hmem (by simp [Pc.charge]) w h')
                · simp at hwc
              · exact depthInv_set_of_mem hD hmem (by simp) rfl
            · simp only [stepUnit, if_neg hvis]
              have hset := unitsCharge_set ⟨url, depth, Pc.addR x rest⟩ hu
              refine ⟨?_, ?_, ?_, ?_⟩
              · simp only [chargedTotal] at hA ⊢
                simp only [Pc.charge] at hset
                omega
              · intro hcl
                have := charge_eq_zero_of_mem hmem (hB hcl)
                simp [Pc.charge] at this
              · rintro ⟨w, hw, hwc⟩
                rcases List.mem_or_eq_of_mem_set hw with h' | rfl
                · exact absurd hwc
                    (no_closeCh_of_charged hC hmem (by simp [Pc.charge]) w h')
                · simp at hwc
              · exact depthInv_set_of_mem hD hmem (by simp) rfl
    | addR x rest =>
        simp only [stepUnit]
        have hset := unitsCharge_set ⟨url, depth, Pc.goChild x rest⟩ hu
        refine ⟨?_, ?_, ?_, ?_⟩
        · simp only [chargedTotal, SafeCache.AddRoutine] at hA ⊢
          simp only [Pc.charge] at hset
          omega
        · intro hcl
          have := charge_eq_zero_of_mem hmem (hB hcl)
          simp [Pc.charge] at this
        · rintro ⟨w, hw, hwc⟩
          rcases List.mem_or_eq_of_mem_set hw with h' | rfl
          · exact absurd hwc
              (no_closeCh_of_charged hC hmem (by simp [Pc.charge]) w h')
          · simp at hwc
        · exact depthInv_set_of_mem hD hmem (by simp) rfl
    | goChild x rest =>
        simp only [stepUnit]
        have hset := unitsCharge_set ⟨url, depth, Pc.loop rest⟩ hu
        refine ⟨?_, ?_, ?_, ?_⟩
        · have h1 : unitsCharge [(⟨x, depth - 1, Pc.entry⟩ : UnitState)] = 1 := by
            simp [unitsCharge, Pc.charge]
          have hset2 : unitsCharge (s.units.set i ⟨url, depth, Pc.loop rest⟩) + 2
              = unitsCharge s.units + 1 := by
            simpa [Pc.charge] using hset
          have hAu : (unitsCharge s.units : Int) ≤ s.cache.routine := hA
          show (unitsCharge (s.units.set i ⟨url, depth, Pc.loop rest⟩ ++
              [⟨x, depth - 1, Pc.entry⟩]) : Int) ≤ s.cache.routine
          rw [unitsCharge_append, h1]
          omega
        · intro hcl
          have := charge_eq_zero_of_mem hmem (hB hcl)
          simp [Pc.charge] at this
        · rintro ⟨w, hw, hwc⟩
          rcases List.mem_append.1 hw with hw' | hw'
          · rcases List.mem_or_eq_of_mem_set hw' with h' | rfl
            · exact absurd hwc
                (no_closeCh_of_charged hC hmem (by simp [Pc.charge]) w h')
            · simp at hwc
          · simp only [List.mem_singleton] at hw'
            subst hw'
            simp at hwc
        · intro w hw hne
          rcases List.mem_append.1 hw with hw' | hw'
          · refine depthInv_set_of_mem hD hmem (by simp) ?_ w hw' hne
            rfl
          · simp only [List.mem_singleton] at hw'
            subst hw'
            simp at hne
    | doneR =>
        simp only [stepUnit]
        have hset := unitsCharge_set ⟨url, depth, Pc.checkClose⟩ hu
        refine ⟨?_, ?_, ?_, ?_⟩
        · simp only [chargedTotal, SafeCache.DoneRoutine] at hA ⊢
          simp only [Pc.charge] at hset
          omega
        · intro hcl
          have := charge_eq_zero_of_mem hmem (hB hcl)
          simp [Pc.charge] at this
        · rintro ⟨w, hw, hwc⟩
          rcases List.mem_or_eq_of_mem_set hw with h' | rfl
          · exact absurd hwc
              (no_closeCh_of_charged hC hmem (by simp [Pc.charge]) w h')
          · simp at hwc
        · exact depthInv_set_of_mem hD hmem (by simp) rfl
    | checkClose =>
        by_cases hn : s.cache.GetRoutineNum ≤ 0
        · simp only [stepUnit, if_pos hn]
          have hset := unitsCharge_set ⟨url, depth, Pc.closeCh⟩ hu
          simp only [SafeCache.GetRoutineNum] at hn
          have hAu : (unitsCharge s.units : Int) ≤ s.cache.routine := hA
          have h0 : unitsCharge s.units = 0 := by omega
          have hset0 : unitsCharge (s.units.set i ⟨url, depth, Pc.closeCh⟩)
              = unitsCharge s.units := by
            simpa [Pc.charge] using hset
          refine ⟨?_, ?_, ?_, ?_⟩
          · show (unitsCharge (s.units.set i ⟨url, depth, Pc.closeCh⟩) : Int)
              ≤ s.cache.routine
            rw [hset0]
            exact hAu
          · intro _
            show unitsCharge (s.units.set i ⟨url, depth, Pc.closeCh⟩) = 0
            rw [hset0]
            exact h0
          · intro _
            show unitsCharge (s.units.set i ⟨url, depth, Pc.closeCh⟩) = 0
            rw [hset0]
            exact h0
          · exact depthInv_set_of_mem hD hmem (by simp) rfl
        · simp only [stepUnit, if_neg hn]
          have herase := unitsCharge_eraseIdx hu
          refine ⟨?_, ?_, ?_, ?_⟩
          · simp only [chargedTotal] at hA ⊢
            simp only [Pc.charge] at herase
            omega
          · intro hcl
            have h0 := hB hcl
            simp only [chargedTotal] at h0 ⊢
            simp only [Pc.charge] at herase
            omega
          · rintro ⟨w, hw, hwc⟩
            have h0 : chargedTotal s = 0 :=
              hC ⟨w, List.eraseIdx_subset _ _ hw, hwc⟩
            simp only [chargedTotal] at h0 ⊢
            simp only [Pc.charge] at herase
            omega
          · exact depthInv_erase hD
    | closeCh =>
        have h0 : chargedTotal s = 0 := hC ⟨⟨url, depth, Pc.closeCh⟩, hmem, rfl⟩
        have herase := unitsCharge_eraseIdx hu
        by_cases hcl : s.closed
        · simp only [stepUnit, if_pos hcl]
          refine ⟨?_, ?_, ?_, ?_⟩
          · simp only [chargedTotal] at hA h0 ⊢
            simp only [Pc.charge] at herase
            omega
          · intro _
            simp only [chargedTotal] at h0 ⊢
            simp only [Pc.charge] at herase
            omega
          · intro _
            simp only [chargedTotal] at h0 ⊢
            simp only [Pc.charge] at herase
            omega
          · exact depthInv_erase hD
        · simp only [stepUnit, if_neg hcl]
          refine ⟨?_, ?_, ?_, ?_⟩
          · simp only [chargedTotal] at hA h0 ⊢
            simp only [Pc.charge] at herase
            omega
          · intro _
            simp only [chargedTotal] at h0 ⊢
            simp only [Pc.charge] at herase
            omega
          · intro _
            simp only [chargedTotal] at h0 ⊢
            simp only [Pc.charge] at herase
            omega
          · exact depthInv_erase hD

/-- The invariant holds in the state `Crawl` sets up. -/
theorem GlobalInv_init (url : String) (depth : Int) :
    GlobalInv (initState url depth) := by
  refine ⟨?_, ?_, ?_, ?_⟩
  · norm_num [initState, chargedTotal, unitsCharge, Pc.charge, newCache,
      SafeCache.AddRoutine]
  · simp [initState]
  · rintro ⟨u, hu, hc⟩
    simp only [initState, List.mem_singleton] at hu
    subst hu
    simp at hc
  · intro u hu hne
    simp only [initState, List.mem_singleton] at hu
    subst hu
    simp at hne

/-- The invariant is preserved by every schedule. -/
theorem GlobalInv_run (F : String → FetchTriple) :
    ∀ (sched : List Nat) (s : CrawlState),
      GlobalInv s → GlobalInv (run F s sched) := by
  intro sched
  induction sched with
  | nil => exact fun s h => h
  | cons i rest ih => exact fun s h => ih (step F s i) (Inv_step F s i h)

/-- A goroutine of charge zero is past its `DoneRoutine`: it is at the
counter check or at the channel close. -/
theorem pc_of_charge_eq_zero {p : Pc} (h : p.charge = 0) :
    p = Pc.checkClose ∨ p = Pc.closeCh := by
  cases p <;>
    first
      | exact Or.inl rfl
      | exact Or.inr rfl
      | simp [Pc.charge] at h

/-- Step characterization: depth guard fires — the goroutine returns at
once, leaving every shared field (visited map, counter, channel, log) and
every other goroutine untouched, and performing no `DoneRoutine`. -/
theorem step_eq_entry_le (F : String → FetchTriple) (s : CrawlState) (i : Nat)
    (u : UnitState) (hu : s.units[i]? = some u) (hpc : u.pc = Pc.entry)
    (hd : u.depth ≤ 0) :
    step F s i = { s with units := s.units.eraseIdx i } := by
  obtain ⟨url, depth, pc⟩ := u
  cases hpc
  rw [step.eq_def, hu]
  simp only [stepUnit, if_pos hd]

/-- Step characterization: depth guard passes. -/
theorem step_eq_entry_gt (F : String → FetchTriple) (s : CrawlState) (i : Nat)
    (u : UnitState) (hu : s.units[i]? = some u) (hpc : u.pc = Pc.entry)
    (hd : ¬ u.depth ≤ 0) :
    step F s i = { s with units := s.units.set i { u with pc := Pc.mark } } := by
  obtain ⟨url, depth, pc⟩ := u
  cases hpc
  rw [step.eq_def, hu]
  simp only [stepUnit, if_neg hd]

/-- Step characterization: `cache.Visited(url)`. -/
theorem step_eq_mark (F : String → FetchTriple) (s : CrawlState) (i : Nat)
    (u : UnitState) (hu : s.units[i]? = some u) (hpc : u.pc = Pc.mark) :
    step F s i = { s with cache := s.cache.Visited u.url,
                          units := s.units.set i { u with pc := Pc.fetchUrl } } := by
  obtain ⟨url, depth, pc⟩ := u
  cases hpc
  rw [step.eq_def, hu]
  rfl

/-- Step characterization: a failing fetch — nothing shared changes and
the goroutine heads for the error report. -/
theorem step_eq_fetch_err (F : String → FetchTriple) (s : CrawlState) (i : Nat)
    (u : UnitState) (e : String) (hu : s.units[i]? = some u)
    (hpc : u.pc = Pc.fetchUrl) (he : (F u.url).err = some e) :
    step F s i = { s with units := s.units.set i { u with pc := Pc.logErr e } } := by
  obtain ⟨url, depth, pc⟩ := u
  cases hpc
  rw [step.eq_def, hu]
  simp only [stepUnit, he]

/-- Step characterization: a successful fetch. -/
theorem step_eq_fetch_ok (F : String → FetchTriple) (s : CrawlState) (i : Nat)
    (u : UnitState) (hu : s.units[i]? = some u)
    (hpc : u.pc = Pc.fetchUrl) (he : (F u.url).err = none) :
    step F s i =
      { s with units :=
          s.units.set i { u with pc := Pc.send (F u.url).body (F u.url).urls } } := by
  obtain ⟨url, depth, pc⟩ := u
  cases hpc
  rw [step.eq_def, hu]
  simp only [stepUnit, he]

/-- Step characterization: `fmt.Println(err)` — the error is appended to
the log and nothing else changes. -/
theorem step_eq_logErr (F : String → FetchTriple) (s : CrawlState) (i : Nat)
    (u : UnitState) (e : String) (hu : s.units[i]? = some u)
    (hpc : u.pc = Pc.logErr e) :
    step F s i = { s with errors := s.errors ++ [e],
                          units := s.units.set i { u with pc := Pc.doneR } } := by
  obtain ⟨url, depth, pc⟩ := u
  cases hpc
  rw [step.eq_def, hu]
  rfl

/-- Step characterization: `ch <- result` on the open channel. -/
theorem step_eq_send_open (F : String → FetchTriple) (s : CrawlState) (i : Nat)
    (u : UnitState) (body : String) (urls : List String)
    (hu : s.units[i]? = some u) (hpc : u.pc = Pc.send body urls)
    (hcl : s.closed = false) :
    step F s i = { s with emitted := s.emitted ++ [⟨u.url, body, none⟩],
                          units := s.units.set i { u with pc := Pc.loop urls } } := by
  obtain ⟨url, depth, pc⟩ := u
  cases hpc
  rw [step.eq_def, hu]
  simp only [stepUnit, hcl, Bool.false_eq_true, if_false]

/-- Step characterization: the url loop is exhausted. -/
theorem step_eq_loop_nil (F : String → FetchTriple) (s : CrawlState) (i : Nat)
    (u : UnitState) (hu : s.units[i]? = some u) (hpc : u.pc = Pc.loop []) :
    step F s i = { s with units := s.units.set i { u with pc := Pc.doneR } } := by
  obtain ⟨url, depth, pc⟩ := u
  cases hpc
  rw [step.eq_def, hu]
  rfl

/-- Step characterization: the loop head is already visited — the
goroutine moves to the next url with no increment and no spawn. -/
theorem step_eq_loop_visited (F : String → FetchTriple) (s : CrawlState) (i : Nat)
    (u : UnitState) (x : String) (rest : List String)
    (hu : s.units[i]? = some u) (hpc : u.pc = Pc.loop (x :: rest))
    (hv : s.cache.IsVisited x = true) :
    step F s i = { s with units := s.units.set i { u with pc := Pc.loop rest } } := by
  obtain ⟨url, depth, pc⟩ := u
  cases hpc
  rw [step.eq_def, hu]
  simp only [stepUnit, hv, if_true]

/-- Step characterization: the loop head is unvisited — the goroutine
proceeds to `AddRoutine`, changing nothing shared yet. -/
theorem step_eq_loop_unvisited (F : String → FetchTriple) (s : CrawlState) (i : Nat)
    (u : UnitState) (x : String) (rest : List String)
    (hu : s.units[i]? = some u) (hpc : u.pc = Pc.loop (x :: rest))
    (hv : s.cache.IsVisited x = false) :
    step F s i = { s with units := s.units.set i { u with pc := Pc.addR x rest } } := by
  obtain ⟨url, depth, pc⟩ := u
  cases hpc
  rw [step.eq_def, hu]
  simp only [stepUnit, hv, Bool.false_eq_true, if_false]

/-- Step characterization: `cache.AddRoutine()` — the live-worker counter
is incremented first, before the child is started. -/
theorem step_eq_addR (F : String → FetchTriple) (s : CrawlState) (i : Nat)
    (u : UnitState) (x : String) (rest : List String)
    (hu : s.units[i]? = some u) (hpc : u.pc = Pc.addR x rest) :
    step F s i = { s with cache := s.cache.AddRoutine,
                          units := s.units.set i { u with pc := Pc.goChild x rest } } := by
  obtain ⟨url, depth, pc⟩ := u
  cases hpc
  rw [step.eq_def, hu]
  rfl

/-- Step characterization: `go crawl(u, depth-1, ...)` — exactly one new
goroutine for `(x, depth - 1)` is started, the counter unchanged (it was
already incremented by the preceding `AddRoutine` step). -/
theorem step_eq_goChild (F : String → FetchTriple) (s : CrawlState) (i : Nat)
    (u : UnitState) (x : String) (rest : List String)
    (hu : s.units[i]? = some u) (hpc : u.pc = Pc.goChild x rest) :
    step F s i = { s with units := s.units.set i { u with pc := Pc.loop rest }
                            ++ [⟨x, u.depth - 1, Pc.entry⟩] } := by
  obtain ⟨url, depth, pc⟩ := u
  cases hpc
  rw [step.eq_def, hu]
  rfl

/-- Step characterization: `cache.DoneRoutine()` — the only step of a
goroutine's lifetime that decrements the counter, performed exactly once
on every path that passed the depth guard. -/
theorem step_eq_doneR (F : String → FetchTriple) (s : CrawlState) (i : Nat)
    (u : UnitState) (hu : s.units[i]? = some u) (hpc : u.pc = Pc.doneR) :
    step F s i = { s with cache := s.cache.DoneRoutine,
                          units := s.units.set i { u with pc := Pc.checkClose } } := by
  obtain ⟨url, depth, pc⟩ := u
  cases hpc
  rw [step.eq_def, hu]
  rfl

/-- Step characterization: the counter read observes `n <= 0`, so the
goroutine will go on to `close(ch)`. -/
theorem step_eq_checkClose_le (F : String → FetchTriple) (s : CrawlState) (i : Nat)
    (u : UnitState) (hu : s.units[i]? = some u) (hpc : u.pc = Pc.checkClose)
    (hn : s.cache.GetRoutineNum ≤ 0) :
    step F s i = { s with units := s.units.set i { u with pc := Pc.closeCh } } := by
  obtain ⟨url, depth, pc⟩ := u
  cases hpc
  rw [step.eq_def, hu]
  simp only [stepUnit, if_pos hn]

/-- Step characterization: the counter read observes `n > 0`, so the
goroutine returns without closing. -/
theorem step_eq_checkClose_gt (F : String → FetchTriple) (s : CrawlState) (i : Nat)
    (u : UnitState) (hu : s.units[i]? = some u) (hpc : u.pc = Pc.checkClose)
    (hn : ¬ s.cache.GetRoutineNum ≤ 0) :
    step F s i = { s with units := s.units.eraseIdx i } := by
  obtain ⟨url, depth, pc⟩ := u
  cases hpc
  rw [step.eq_def, hu]
  simp only [stepUnit, if_neg hn]

/-- Step characterization: `close(ch)` on the still-open channel. -/
theorem step_eq_closeCh_open (F : String → FetchTriple) (s : CrawlState) (i : Nat)
    (u : UnitState) (hu : s.units[i]? = some u) (hpc : u.pc = Pc.closeCh)
    (hcl : s.closed = false) :
    step F s i = { s with closed := true, units := s.units.eraseIdx i } := by
  obtain ⟨url, depth, pc⟩ := u
  cases hpc
  rw [step.eq_def, hu]
  simp only [stepUnit, hcl, Bool.false_eq_true, if_false]

/-- A state with no live goroutine is final: every further scheduler step
is a no-op. -/
theorem step_of_units_nil (F : String → FetchTriple) (s : CrawlState) (i : Nat)
    (h : s.units = []) : step F s i = s := by
  rw [step.eq_def, h]
  simp

/-- `IsVisited` after a sequence of marks: true iff the identifier was
marked in the sequence or was already visited before it. -/
theorem isVisited_markAll (ms : List String) :
    ∀ (c : SafeCache) (id : String),
      (markAll ms c).IsVisited id = true ↔ id ∈ ms ∨ c.IsVisited id = true := by
  induction ms with
  | nil => intro c id; simp [markAll]
  | cons m rest ih =>
      intro c id
      have := ih (c.Visited m) id
      simp only [markAll, List.foldl_cons] at this ⊢
      rw [this]
      by_cases h : id = m
      · subst h
        simp [SafeCache.IsVisited, SafeCache.Visited]
      · simp [SafeCache.IsVisited, SafeCache.Visited, h]

/-- C9: marking (`SafeCache.Visited`) is idempotent — marking the same
identifier twice yields the same tracker state as marking it once; on a
tracker built from the fresh cache by any sequence of marks, `IsVisited
id` reads true iff `id` occurs in that sequence (`IsVisited` is a pure
read and marks nothing, by its type `SafeCache → String → Bool`); and on
the fresh tracker every identifier reads false. -/
theorem visited_tracker_contract :
    (∀ (c : SafeCache) (url : String),
        (c.Visited url).Visited url = c.Visited url) ∧
    (∀ (ms : List String) (id : String),
        (markAll ms newCache).IsVisited id = true ↔ id ∈ ms) ∧
    (∀ id : String, newCache.IsVisited id = false) := by
  refine ⟨?_, ?_, fun id => rfl⟩
  · intro c url
    simp only [SafeCache.Visited]
    congr 1
    funext k
    by_cases h : k = url <;> simp [h]
  · intro ms id
    rw [isVisited_markAll]
    simp [SafeCache.IsVisited, newCache]

/-- C10: the bundled `fakeFetcher.Fetch` is a pure function of `url`
(embedded as such): when `url` is a key of the canned map it returns that
entry's body and url list with nil error; when it is not, it returns the
empty body, the nil url list and the error `not found: <url>`; the error
is non-nil exactly when the lookup fails; and the map has exactly the
four golang.org keys. -/
theorem fakeFetcher_contract :
    (∀ (url : String) (r : FakeResult), lookupFake goFetcher url = some r →
        fakeFetch goFetcher url = ⟨r.body, r.urls, none⟩) ∧
    (∀ url : String, lookupFake goFetcher url = none →
        fakeFetch goFetcher url = ⟨"", [], some ("not found: " ++ url)⟩) ∧
    (∀ url : String,
        (fakeFetch goFetcher url).err = none
          ↔ (lookupFake goFetcher url).isSome = true) ∧
    goFetcher.map Prod.fst =
      ["https://golang.org/", "https://golang.org/pkg/",
       "https://golang.org/pkg/fmt/", "https://golang.org/pkg/os/"] := by
  refine ⟨?_, ?_, ?_, by decide⟩
  · intro url r h
    simp [fakeFetch, h]
  · intro url h
    simp [fakeFetch, h]
  · intro url
    cases h : lookupFake goFetcher url <;> simp [fakeFetch, h]

/-- Witness for C10: the hit `https://golang.org/` and the miss
`https://golang.org/cmd/` (the very url whose fetch fails in the Go
program's run). -/
theorem fakeFetcher_contract_witness :
    fakeFetch goFetcher "https://golang.org/" =
      ⟨"The Go Programming Language",
        ["https://golang.org/pkg/", "https://golang.org/cmd/"], none⟩ ∧
    fakeFetch goFetcher "https://golang.org/cmd/" =
      ⟨"", [], some ("not found: " ++ "https://golang.org/cmd/")⟩ :=
  ⟨fakeFetcher_contract.1 "https://golang.org/"
      ⟨"The Go Programming Language",
        ["https://golang.org/pkg/", "https://golang.org/cmd/"]⟩ (by decide),
   fakeFetcher_contract.2.1 "https://golang.org/cmd/" (by decide)⟩

/-- C1 (refuted — code bug): on the graph `a → [b]` with `maxDepth = 1`,
running the whole traversal to quiescence (schedule `[0] * 11` executes
the root to completion and then the spawned child `b`), every goroutine
has finished (`units = []`), yet the channel is never closed and the
counter is stuck at `1`: the increment `AddRoutine` performed at the
spawn of `b` (depth `0`) is never matched by a decrement, because the
depth guard returns without `DoneRoutine`.  Every further scheduler step
is a no-op, so no state with a closed stream is ever reached and
`Crawl`'s drain loop blocks forever. -/
theorem crawl_depth_zero_leak :
    ((run (fakeFetch graphA) (initState "a" 1) (List.replicate 11 0)).units = []
      ∧ (run (fakeFetch graphA) (initState "a" 1) (List.replicate 11 0)).closed
          = false
      ∧ (run (fakeFetch graphA) (initState "a" 1)
          (List.replicate 11 0)).cache.routine = 1
      ∧ (run (fakeFetch graphA) (initState "a" 1) (List.replicate 11 0)).emitted
          = [⟨"a", "body a", none⟩])
    ∧ ∀ i : Nat,
        step (fakeFetch graphA)
          (run (fakeFetch graphA) (initState "a" 1) (List.replicate 11 0)) i
        = run (fakeFetch graphA) (initState "a" 1) (List.replicate 11 0) :=
  ⟨by decide, fun i => step_of_units_nil _ _ i (by decide)⟩

/-- C2 (counterexample): in the same scenario, after five steps the root
is about to run `AddRoutine` for the unvisited edge `b` (counter `1`);
the sixth step increments the counter to `2` on behalf of the child that
the seventh step then starts with `remainingDepth = 1 - 1 = 0`; running
to quiescence leaves the counter at `1` with no goroutine alive — the
increment charged for the depth-`0` unit is never repaid.  This refutes
"such a unit is never counted toward the live-worker total". -/
theorem depth_zero_child_counted :
    ((run (fakeFetch graphA) (initState "a" 1)
        (List.replicate 5 0)).cache.routine = 1
      ∧ (run (fakeFetch graphA) (initState "a" 1) (List.replicate 5 0)).units
          = [⟨"a", 1, Pc.addR "b" []⟩])
    ∧ ((run (fakeFetch graphA) (initState "a" 1)
        (List.replicate 6 0)).cache.routine = 2
      ∧ (run (fakeFetch graphA) (initState "a" 1) (List.replicate 6 0)).units
          = [⟨"a", 1, Pc.goChild "b" []⟩])
    ∧ (run (fakeFetch graphA) (initState "a" 1) (List.replicate 7 0)).units
        = [⟨"a", 1, Pc.loop []⟩, ⟨"b", 0, Pc.entry⟩]
    ∧ ((run (fakeFetch graphA) (initState "a" 1) (List.replicate 11 0)).units
        = []
      ∧ (run (fakeFetch graphA) (initState "a" 1)
          (List.replicate 11 0)).cache.routine = 1) := by
  decide

/-- C2 (amended): a traversal unit invoked with `remainingDepth ≤ 0`
terminates immediately with no side effects — no mark, no fetch, no
emission, no error log, no counter change, no close: the step removes the
goroutine and leaves every other field of the state, and every other
goroutine, exactly as they were.  (The spawning loop, however, increments
the counter for every unvisited edge regardless of the child's depth, so
such a unit may well have been counted — see the counterexample.) -/
theorem depth_guard_no_side_effects (F : String → FetchTriple)
    (s : CrawlState) (i : Nat) (u : UnitState)
    (hu : s.units[i]? = some u) (hpc : u.pc = Pc.entry) (hd : u.depth ≤ 0) :
    step F s i = { s with units := s.units.eraseIdx i } :=
  step_eq_entry_le F s i u hu hpc hd

/-- Witness for the amended C2: the child `b` spawned with depth `0` in
the leak scenario vanishes, changing nothing else. -/
theorem depth_guard_no_side_effects_witness :
    step (fakeFetch graphA)
        (run (fakeFetch graphA) (initState "a" 1) (List.replicate 7 0)) 1
      = { run (fakeFetch graphA) (initState "a" 1) (List.replicate 7 0) with
          units := (run (fakeFetch graphA) (initState "a" 1)
            (List.replicate 7 0)).units.eraseIdx 1 } :=
  depth_guard_no_side_effects (fakeFetch graphA) _ 1 ⟨"b", 0, Pc.entry⟩
    (by decide) rfl (by decide)

/-- C3 (refuted — code bug): on the graph `a → [b]`, `b → []` with
`maxDepth = 2`, the interleaving in which both goroutines perform their
`DoneRoutine` before either runs `chanCloseFunc` makes both counter reads
observe `0`: after 17 steps both goroutines stand at `close(ch)`; the
18th and 19th steps close the channel, and the 20th step closes it again
— in Go, a panic (`close of closed channel`).  The decrement, the read
and the close are three separate critical sections (the close not under
the lock at all), so the counter mutex does not prevent the second
close. -/
theorem double_close_panics :
    (run (fakeFetch graphAB) (initState "a" 2)
        (List.replicate 8 0 ++ List.replicate 5 1 ++ [0, 1, 0, 1])).units
      = [⟨"a", 2, Pc.closeCh⟩, ⟨"b", 1, Pc.closeCh⟩]
    ∧ (run (fakeFetch graphAB) (initState "a" 2)
        (List.replicate 8 0 ++ List.replicate 5 1 ++ [0, 1, 0, 1])).cache.routine
      = 0
    ∧ (run (fakeFetch graphAB) (initState "a" 2)
        (List.replicate 8 0 ++ List.replicate 5 1 ++ [0, 1, 0, 1, 0])).closed
      = true
    ∧ (run (fakeFetch graphAB) (initState "a" 2)
        (List.replicate 8 0 ++ List.replicate 5 1 ++ [0, 1, 0, 1, 0, 0])).panicked
      = true := by
  decide

/-- C4: the error path of a traversal unit — when the fetch fails, the
unit proceeds to the error report, the log and the finalization: no
`FetchResult` is pushed (`emitted` unchanged in every conjunct), no child
is started (the goroutine list is only `set`/`eraseIdx`, never extended,
so all sibling goroutines are untouched), the error is appended to the
logging side channel, and the counter is decremented exactly once (only
the `DoneRoutine` conjunct touches it). -/
theorem fetch_error_isolation (F : String → FetchTriple) (s : CrawlState)
    (i : Nat) (u : UnitState) (e : String) (hu : s.units[i]? = some u) :
    (u.pc = Pc.fetchUrl → (F u.url).err = some e →
      step F s i = { s with units := s.units.set i { u with pc := Pc.logErr e } }) ∧
    (u.pc = Pc.logErr e →
      step F s i = { s with errors := s.errors ++ [e],
                            units := s.units.set i { u with pc := Pc.doneR } }) ∧
    (u.pc = Pc.doneR →
      step F s i = { s with cache := s.cache.DoneRoutine,
                            units := s.units.set i { u with pc := Pc.checkClose } }) ∧
    (u.pc = Pc.checkClose → ¬ s.cache.GetRoutineNum ≤ 0 →
      step F s i = { s with units := s.units.eraseIdx i }) :=
  ⟨fun hpc he => step_eq_fetch_err F s i u e hu hpc he,
   fun hpc => step_eq_logErr F s i u e hu hpc,
   fun hpc => step_eq_doneR F s i u hu hpc,
   fun hpc hn => step_eq_checkClose_gt F s i u hu hpc hn⟩

/-- Witness for C4: in the spec's concrete scenario the fetch of `C`
fails; its goroutine steps from the fetch to the error report, siblings
and channel untouched. -/
theorem fetch_error_isolation_witness :
    step (fakeFetch graphABC)
        (run (fakeFetch graphABC) (initState "A" 2) (List.replicate 23 0)) 0
      = { run (fakeFetch graphABC) (initState "A" 2) (List.replicate 23 0) with
          units := (run (fakeFetch graphABC) (initState "A" 2)
            (List.replicate 23 0)).units.set 0
              ⟨"C", 1, Pc.logErr "not found: C"⟩ } :=
  (fetch_error_isolation (fakeFetch graphABC) _ 0 ⟨"C", 1, Pc.fetchUrl⟩
      "not found: C" (by decide)).1 rfl (by decide)

/-- C5 (counterexample): in the double-close interleaving, right after
the first `close(ch)` the channel is closed while the goroutine for `b`
is still running — it has not returned from `crawl` (it still has its own
`close(ch)` to execute, which will panic).  So the stream does close
while a spawned unit has not yet reached `Done`. -/
theorem stream_closes_before_unit_done :
    (run (fakeFetch graphAB) (initState "a" 2)
        (List.replicate 8 0 ++ List.replicate 5 1 ++ [0, 1, 0, 1, 0])).closed
      = true
    ∧ (run (fakeFetch graphAB) (initState "a" 2)
        (List.replicate 8 0 ++ List.replicate 5 1 ++ [0, 1, 0, 1, 0])).units
      = [⟨"b", 1, Pc.closeCh⟩] := by
  decide

/-- C5 (amended): the stream never closes — and the counter is never
observed at or below zero — while any spawned unit has not yet performed
its `DoneRoutine` decrement: in every reachable state with `closed = true`
or with `routine ≤ 0`, every live goroutine is already past its
decrement, standing at the counter check or at the close itself; no unit
is still pending, marking, fetching, emitting or spawning.  (Only such
finalization tails can remain — see the counterexample.) -/
theorem no_close_before_final_decrement (F : String → FetchTriple)
    (url : String) (depth : Int) (sched : List Nat) :
    ((run F (initState url depth) sched).closed = true →
      ∀ u ∈ (run F (initState url depth) sched).units,
        u.pc = Pc.checkClose ∨ u.pc = Pc.closeCh) ∧
    ((run F (initState url depth) sched).cache.routine ≤ 0 →
      ∀ u ∈ (run F (initState url depth) sched).units,
        u.pc = Pc.checkClose ∨ u.pc = Pc.closeCh) := by
  obtain ⟨hA, hB, hC, hD⟩ :=
    GlobalInv_run F sched (initState url depth) (GlobalInv_init url depth)
  constructor
  · intro hcl u hu
    exact pc_of_charge_eq_zero (charge_eq_zero_of_mem hu (hB hcl))
  · intro hn u hu
    have h0 : chargedTotal (run F (initState url depth) sched) = 0 := by
      omega
    exact pc_of_charge_eq_zero (charge_eq_zero_of_mem hu h0)

/-- Witness for the amended C5: in the double-close state the channel is
closed and the one remaining goroutine is indeed at `close(ch)`. -/
theorem no_close_before_final_decrement_witness :
    (run (fakeFetch graphAB) (initState "a" 2)
        (List.replicate 8 0 ++ List.replicate 5 1 ++ [0, 1, 0, 1, 0])).closed
      = true
    ∧ ∀ u ∈ (run (fakeFetch graphAB) (initState "a" 2)
        (List.replicate 8 0 ++ List.replicate 5 1 ++ [0, 1, 0, 1, 0])).units,
        u.pc = Pc.checkClose ∨ u.pc = Pc.closeCh :=
  ⟨by decide,
   (no_close_before_final_decrement (fakeFetch graphAB) "a" 2
      (List.replicate 8 0 ++ List.replicate 5 1 ++ [0, 1, 0, 1, 0])).1
    (by decide)⟩

/-- C6: the spec's concrete scenario — root `A` with edges `[B, C]`,
`maxDepth = 2`, `B` linking back to the already-marked `A`, the fetch of
`C` failing.  After 18 steps `B` has skipped the visited edge `A` with no
increment and no new goroutine (counter still `2`, only `C` pending);
running to completion emits results for exactly `A` and `B`, logs the
error for `C`, closes the stream exactly once (no panic), and ends with
counter `0` and no goroutine alive. -/
theorem concrete_scenario_abc :
    ((run (fakeFetch graphABC) (initState "A" 2) (List.replicate 18 0)).units
        = [⟨"B", 1, Pc.loop []⟩, ⟨"C", 1, Pc.entry⟩]
      ∧ (run (fakeFetch graphABC) (initState "A" 2)
          (List.replicate 18 0)).cache.routine = 2)
    ∧ ((run (fakeFetch graphABC) (initState "A" 2) (List.replicate 28 0)).emitted
        = [⟨"A", "body A", none⟩, ⟨"B", "body B", none⟩]
      ∧ (run (fakeFetch graphABC) (initState "A" 2) (List.replicate 28 0)).errors
        = ["not found: C"]
      ∧ (run (fakeFetch graphABC) (initState "A" 2) (List.replicate 28 0)).closed
        = true
      ∧ (run (fakeFetch graphABC) (initState "A" 2) (List.replicate 28 0)).panicked
        = false
      ∧ (run (fakeFetch graphABC) (initState "A" 2) (List.replicate 28 0)).units
        = []
      ∧ (run (fakeFetch graphABC) (initState "A" 2)
          (List.replicate 28 0)).cache.routine = 0) := by
  decide

/-- C7: the edge loop after a successful fetch — for the head edge `x`:
if `IsVisited x` reads true the unit moves on, with no counter change and
no new goroutine; if it reads false the unit first increments the
live-worker counter (the `AddRoutine` conjunct, which starts no goroutine
yet) and then starts exactly one new traversal unit for
`(x, remainingDepth - 1)` (the `go` conjunct, which touches no counter). -/
theorem spawn_only_unvisited (F : String → FetchTriple) (s : CrawlState)
    (i : Nat) (u : UnitState) (x : String) (rest : List String)
    (hu : s.units[i]? = some u) :
    (u.pc = Pc.loop (x :: rest) → s.cache.IsVisited x = true →
      step F s i = { s with units := s.units.set i { u with pc := Pc.loop rest } }) ∧
    (u.pc = Pc.loop (x :: rest) → s.cache.IsVisited x = false →
      step F s i = { s with units := s.units.set i { u with pc := Pc.addR x rest } }) ∧
    (u.pc = Pc.addR x rest →
      step F s i = { s with cache := s.cache.AddRoutine,
                            units := s.units.set i { u with pc := Pc.goChild x rest } }) ∧
    (u.pc = Pc.goChild x rest →
      step F s i = { s with units := s.units.set i { u with pc := Pc.loop rest }
                              ++ [⟨x, u.depth - 1, Pc.entry⟩] }) :=
  ⟨fun hpc hv => step_eq_loop_visited F s i u x rest hu hpc hv,
   fun hpc hv => step_eq_loop_unvisited F s i u x rest hu hpc hv,
   fun hpc => step_eq_addR F s i u x rest hu hpc,
   fun hpc => step_eq_goChild F s i u x rest hu hpc⟩

/-- Witness for C7: the already-visited root `A` is skipped by `B`'s loop
in the concrete scenario, and in the leak scenario the unvisited edge `b`
goes through check, increment and spawn (child depth `1 - 1 = 0`). -/
theorem spawn_only_unvisited_witness :
    (step (fakeFetch graphABC)
        (run (fakeFetch graphABC) (initState "A" 2) (List.replicate 17 0)) 0
      = { run (fakeFetch graphABC) (initState "A" 2) (List.replicate 17 0) with
          units := (run (fakeFetch graphABC) (initState "A" 2)
            (List.replicate 17 0)).units.set 0 ⟨"B", 1, Pc.loop []⟩ })
    ∧ (step (fakeFetch graphA)
        (run (fakeFetch graphA) (initState "a" 1) (List.replicate 5 0)) 0
      = { run (fakeFetch graphA) (initState "a" 1) (List.replicate 5 0) with
          cache := (run (fakeFetch graphA) (initState "a" 1)
            (List.replicate 5 0)).cache.AddRoutine,
          units := (run (fakeFetch graphA) (initState "a" 1)
            (List.replicate 5 0)).units.set 0 ⟨"a", 1, Pc.goChild "b" []⟩ })
    ∧ (step (fakeFetch graphA)
        (run (fakeFetch graphA) (initState "a" 1) (List.replicate 6 0)) 0
      = { run (fakeFetch graphA) (initState "a" 1) (List.replicate 6 0) with
          units := (run (fakeFetch graphA) (initState "a" 1)
              (List.replicate 6 0)).units.set 0 ⟨"a", 1, Pc.loop []⟩
            ++ [⟨"b", 0, Pc.entry⟩] }) :=
  ⟨(spawn_only_unvisited (fakeFetch graphABC) _ 0 ⟨"B", 1, Pc.loop ["A"]⟩
      "A" [] (by decide)).1 rfl (by decide),
   (spawn_only_unvisited (fakeFetch graphA) _ 0 ⟨"a", 1, Pc.addR "b" []⟩
      "b" [] (by decide)).2.2.1 rfl,
   (spawn_only_unvisited (fakeFetch graphA) _ 0 ⟨"a", 1, Pc.goChild "b" []⟩
      "b" [] (by decide)).2.2.2 rfl⟩

/-- C8: depth bounding — in every reachable state of a traversal started
by `Crawl(url, d, ...)`, a goroutine about to emit a `FetchResult` has
`remainingDepth ≥ 1`; each started child carries exactly its parent's
depth minus one; and the root starts with exactly the initial `maxDepth`.
Together these bound every emission by the traversed distance from the
root: a node `k` traversed edges from the root runs at depth `d - k`, so
no result is emitted for a node beyond depth `d`. -/
theorem depth_respected :
    (∀ (F : String → FetchTriple) (url : String) (d : Int) (sched : List Nat)
        (u : UnitState) (body : String) (urls : List String),
        u ∈ (run F (initState url d) sched).units →
        u.pc = Pc.send body urls → 1 ≤ u.depth) ∧
    (∀ (F : String → FetchTriple) (s : CrawlState) (i : Nat) (u : UnitState)
        (x : String) (rest : List String),
        s.units[i]? = some u → u.pc = Pc.goChild x rest →
        step F s i = { s with units := s.units.set i { u with pc := Pc.loop rest }
                                ++ [⟨x, u.depth - 1, Pc.entry⟩] }) ∧
    (∀ (url : String) (d : Int), (initState url d).units = [⟨url, d, Pc.entry⟩]) := by
  refine ⟨?_, ?_, fun url d => rfl⟩
  · intro F url d sched u body urls hu hpc
    obtain ⟨-, -, -, hD⟩ := GlobalInv_run F sched _ (GlobalInv_init url d)
    exact hD u hu (by simp [hpc])
  · intro F s i u x rest hu hpc
    exact step_eq_goChild F s i u x rest hu hpc

/-- Witness for C8: the root goroutine of the leak scenario at its
emission step runs with depth `1 ≥ 1`. -/
theorem depth_respected_witness :
    (⟨"a", 1, Pc.send "body a" ["b"]⟩ : UnitState) ∈
      (run (fakeFetch graphA) (initState "a" 1) (List.replicate 3 0)).units
    ∧ (1 : Int) ≤ (⟨"a", 1, Pc.send "body a" ["b"]⟩ : UnitState).depth :=
  ⟨by decide,
   depth_respected.1 (fakeFetch graphA) "a" 1 (List.replicate 3 0)
     ⟨"a", 1, Pc.send "body a" ["b"]⟩ "body a" ["b"] (by decide) rfl⟩

end WebCrawler
